import Mathlib

/-!
Verification development for the svg-tessellation-renderer core
(`src/tessellator/tessellator.rs`): the path-segment adapter
(`PathConvIter`), the paint resolver (`convert_stroke` and the inline
fill-paint match), the transform deduplicator and the tessellation driver
(`LyonTessellator::tessellate`).

Modelling conventions:
* `f64` scalars that participate in equality comparisons (the transform
  matrix entries) are modelled by `F64`, which distinguishes NaN payloads,
  signed zeros and exact finite values; `F64.feq` is IEEE `==` (the
  semantics of Rust's derived `PartialEq` on `f64` fields), while
  structural equality of `F64` is bit-identity.
* Path coordinates are modelled exactly as rationals; the `f64 -> f32`
  narrowing performed by `point` in the source is value-preserving here
  (no claim under verification concerns narrowing).
* The external lyon triangulation engine is an oracle: each path shape
  carries the outcome (`EngineResult`) that `FillTessellator` /
  `StrokeTessellator` would produce for it; a successful pass hands the
  emitted raw vertices and local indices to the `BuffersBuilder` model
  `runPass`, a failing pass emits nothing.
* Rust panics (`unwrap` on `None` state, `.expect` on a fill error) are a
  distinguished `TessOutcome.panicked` result, separate from returning
  `Ok`/`Err` through the function's `Result` type.
-/

namespace SvgTess

/-- Model of an `f64` value as used by the transform comparison: NaNs
(with a payload distinguishing bit patterns), signed zeros, and exact
nonzero finite values. Structural equality is bit-identity. -/
inductive F64 where
  | nan (payload : Nat)
  | zero (neg : Bool)
  | num (q : ℚ)
deriving DecidableEq

/-- IEEE-754 equality on `F64`: NaN compares unequal to everything
(including itself), `+0.0 == -0.0`, finite values compare by value. This
is what Rust's derived `PartialEq` performs on `f64` fields. -/
def F64.feq : F64 → F64 → Bool
  | .nan _, _ => false
  | _, .nan _ => false
  | .zero _, .zero _ => true
  | .zero _, .num b => b == 0
  | .num a, .zero _ => a == 0
  | .num a, .num b => a == b

/-- A 2D point (`lyon::math::Point`); coordinates kept exact. -/
structure Point where
  x : ℚ
  y : ℚ
deriving DecidableEq

/-- `fn point(x: &f64, y: &f64) -> Point` (narrowing modelled as exact). -/
def point (x y : ℚ) : Point := ⟨x, y⟩

/-- `usvg::PathSegment`. -/
inductive PathSegment where
  | moveTo (x y : ℚ)
  | lineTo (x y : ℚ)
  | curveTo (x1 y1 x2 y2 x y : ℚ)
  | closePath
deriving DecidableEq

/-- `lyon::path::PathEvent` (`ends` is `PathEvent::End`). -/
inductive PathEvent where
  | begin (at_ : Point)
  | line (from_ to_ : Point)
  | cubic (from_ ctrl1 ctrl2 to_ : Point)
  | ends (last first : Point) (close : Bool)
deriving DecidableEq

/-- The adapter state (`struct PathConvIter`): the remaining segment
slice, `prev`, `first`, `needs_end`, and the single-slot deferred event. -/
structure PathConvIter where
  iter : List PathSegment
  prev : Point
  first : Point
  needs_end : Bool
  deferred : Option PathEvent
deriving DecidableEq

/-- One step of `impl Iterator for PathConvIter { fn next }`, transcribed
branch by branch; returns the yielded event together with the successor
state. -/
def PathConvIter.next (self : PathConvIter) :
    Option (PathEvent × PathConvIter) :=
  match self.deferred with
  | some ev => some (ev, { self with deferred := none })
  | none =>
    match self.iter with
    | .moveTo x y :: rest =>
      if self.needs_end then
        -- emit End{last: prev, first, close: false}; defer Begin;
        -- needs_end := false; prev := point(x,y); first := prev
        some (.ends self.prev self.first false,
          { iter := rest, prev := point x y, first := point x y,
            needs_end := false, deferred := some (.begin (point x y)) })
      else
        -- first := point(x,y); needs_end := true; emit Begin (prev untouched)
        some (.begin (point x y),
          { iter := rest, prev := self.prev, first := point x y,
            needs_end := true, deferred := none })
    | .lineTo x y :: rest =>
      some (.line self.prev (point x y),
        { iter := rest, prev := point x y, first := self.first,
          needs_end := true, deferred := none })
    | .curveTo x1 y1 x2 y2 x y :: rest =>
      some (.cubic self.prev (point x1 y1) (point x2 y2) (point x y),
        { iter := rest, prev := point x y, first := self.first,
          needs_end := true, deferred := none })
    | .closePath :: rest =>
      -- needs_end := false; prev := first; End{last: prev(=first), first, close: true}
      some (.ends self.first self.first true,
        { iter := rest, prev := self.first, first := self.first,
          needs_end := false, deferred := none })
    | [] =>
      if self.needs_end then
        some (.ends self.prev self.first false,
          { iter := [], prev := self.prev, first := self.first,
            needs_end := false, deferred := none })
      else
        none

/-- Collector for the event stream from a state with an empty deferred
slot; structural recursion on the segment list (the deferred `Begin` of
the reopening-`MoveTo` branch is emitted immediately after the `End`,
which is exactly what two consecutive `next` calls do — certified by
`emitAll_eq_next` below). -/
def emitNone : List PathSegment → Point → Point → Bool → List PathEvent
  | [], prev, first, needs_end =>
    if needs_end then [.ends prev first false] else []
  | .moveTo x y :: rest, prev, first, needs_end =>
    if needs_end then
      .ends prev first false :: .begin (point x y) ::
        emitNone rest (point x y) (point x y) false
    else
      .begin (point x y) :: emitNone rest prev (point x y) true
  | .lineTo x y :: rest, prev, first, _ =>
    .line prev (point x y) :: emitNone rest (point x y) first true
  | .curveTo x1 y1 x2 y2 x y :: rest, prev, first, _ =>
    .cubic prev (point x1 y1) (point x2 y2) (point x y) ::
      emitNone rest (point x y) first true
  | .closePath :: rest, _, first, _ =>
    .ends first first true :: emitNone rest first first false

/-- The whole (finite) event stream produced by repeatedly calling
`next` on an adapter state. -/
def emitAll (it : PathConvIter) : List PathEvent :=
  match it.deferred with
  | some ev => ev :: emitNone it.iter it.prev it.first it.needs_end
  | none => emitNone it.iter it.prev it.first it.needs_end

/-- `fn convert_path`: the initial adapter state over a path's segments. -/
def convert_path (segs : List PathSegment) : PathConvIter :=
  { iter := segs, first := Point.mk 0 0, prev := Point.mk 0 0,
    deferred := none, needs_end := false }

/-- The event stream the adapter produces for a segment list. -/
def pathEvents (segs : List PathSegment) : List PathEvent :=
  emitAll (convert_path segs)

/-! ### Well-formedness of event streams (spec section 3 invariant)

The spec demands that an event stream be a sequence of complete
sub-paths: `Begin`, then `Line`/`Cubic` edges only, then exactly one
`End`, repeated — no `Line`/`Cubic`/`End` outside an open sub-path, no
second `Begin` before the open sub-path is ended, and no sub-path left
open when the stream ends. `wfRun` runs that automaton (the `Bool` is
"a sub-path is currently open"); a stream is well-formed when the run
succeeds and finishes with no open sub-path. -/

/-- One step of the well-formedness automaton over events. -/
def wfStep : Bool → PathEvent → Option Bool
  | false, .begin _ => some true
  | true, .line _ _ => some true
  | true, .cubic _ _ _ _ => some true
  | true, .ends _ _ _ => some false
  | _, _ => none

/-- Run of the well-formedness automaton. -/
def wfRun : Bool → List PathEvent → Option Bool
  | b, [] => some b
  | b, e :: es =>
    match wfStep b e with
    | some b2 => wfRun b2 es
    | none => none

/-- A stream is well-formed when the automaton accepts it starting and
finishing outside any sub-path. -/
def wfEvents (es : List PathEvent) : Bool :=
  wfRun false es == some false

/-- Whether an event is an `End` with `close = true`. -/
def PathEvent.isCloseEnd : PathEvent → Bool
  | .ends _ _ c => c
  | _ => false

/-! ### The segment-side automaton

States of the adapter that matter for well-formedness: `closed` (no
sub-path open, nothing deferred), `opened` (sub-path open and
`needs_end = true`), `reopened` (a deferred `Begin` has been emitted for
a reopened sub-path but `needs_end` is still `false`). -/

inductive SubpathState where
  | closed
  | opened
  | reopened
deriving DecidableEq

/-- Whether, in this adapter state, a `Begin` has been emitted with no
matching `End` yet. -/
def SubpathState.inside : SubpathState → Bool
  | .closed => false
  | .opened => true
  | .reopened => true

/-- The adapter's `needs_end` flag in this state. -/
def SubpathState.ne : SubpathState → Bool
  | .closed => false
  | .opened => true
  | .reopened => false

/-- Transition of the segment-side automaton; `none` marks a segment the
adapter turns into a malformed event (an edge or `End` outside a
sub-path, or a `Begin` while a sub-path is open). -/
def segStep : SubpathState → PathSegment → Option SubpathState
  | .closed, .moveTo _ _ => some .opened
  | .opened, .moveTo _ _ => some .reopened
  | .reopened, .moveTo _ _ => none
  | .closed, .lineTo _ _ => none
  | .opened, .lineTo _ _ => some .opened
  | .reopened, .lineTo _ _ => some .opened
  | .closed, .curveTo _ _ _ _ _ _ => none
  | .opened, .curveTo _ _ _ _ _ _ => some .opened
  | .reopened, .curveTo _ _ _ _ _ _ => some .opened
  | .closed, .closePath => none
  | .opened, .closePath => some .closed
  | .reopened, .closePath => some .closed

/-- Run of the segment-side automaton. -/
def segRun : SubpathState → List PathSegment → Option SubpathState
  | st, [] => some st
  | st, s :: rest =>
    match segStep st s with
    | some st2 => segRun st2 rest
    | none => none

/-- Acceptance from a given state: the run never steps to `none` and
does not finish right after a reopening `MoveTo` (which would leave the
deferred `Begin` unterminated). -/
def segsOkFrom (st : SubpathState) (segs : List PathSegment) : Bool :=
  match segRun st segs with
  | some .reopened => false
  | some _ => true
  | none => false

/-- Normalized segment sequences: accepted from the initial state. -/
def segsOk (segs : List PathSegment) : Bool :=
  segsOkFrom .closed segs

/-! ### Paints, colors and stroke conversion -/

/-- `GpuColor` (four `u8` channels, modelled as `Nat` values ≤ 255 for
everything the code produces). -/
structure GpuColor where
  red : Nat
  green : Nat
  blue : Nat
  alpha : Nat
deriving DecidableEq

/-- `pub const FALLBACK_COLOR`. -/
def FALLBACK_COLOR : GpuColor := ⟨0, 0, 0, 0⟩

/-- `usvg::Paint`: a solid color, or a link to a server (gradient or
pattern) — the code treats every non-`Color` variant alike. -/
inductive Paint where
  | color (red green blue : Nat)
  | link
deriving DecidableEq

/-- Truncation toward zero of a rational (`Int.div` is T-division), the
rounding a Rust float-to-integer cast performs. -/
def ratTrunc (q : ℚ) : Int := Int.tdiv q.num q.den

/-- Rust's saturating `as u8` cast applied to an exact value: truncate
toward zero, clamp into `[0, 255]`. -/
def f64AsU8 (q : ℚ) : Nat := min 255 (ratTrunc q).toNat

/-- `usvg::Fill`: the paint and its opacity (a `NormalizedValue`). -/
structure Fill where
  paint : Paint
  opacity : ℚ

/-- `usvg::LineCap`. -/
inductive UsvgLineCap where
  | butt
  | square
  | round
deriving DecidableEq

/-- `usvg::LineJoin`. -/
inductive UsvgLineJoin where
  | miter
  | bevel
  | round
deriving DecidableEq

/-- `lyon::tessellation::LineCap`. -/
inductive TessLineCap where
  | butt
  | square
  | round
deriving DecidableEq

/-- `lyon::tessellation::LineJoin`. -/
inductive TessLineJoin where
  | miter
  | bevel
  | round
deriving DecidableEq

/-- `usvg::Stroke` (the fields `convert_stroke` reads). -/
structure Stroke where
  paint : Paint
  opacity : ℚ
  width : ℚ
  linecap : UsvgLineCap
  linejoin : UsvgLineJoin

/-- `lyon::tessellation::StrokeOptions` (the fields the code sets). -/
structure StrokeOptions where
  tolerance : ℚ
  line_width : ℚ
  line_cap : TessLineCap
  line_join : TessLineJoin
deriving DecidableEq

/-- `const TOLERANCE: f32 = 0.1`. -/
def TOLERANCE : ℚ := 1 / 10

/-- The inline fill-paint match in `LyonTessellator::tessellate`
(lines 92–100): solid colors copy the channels and cast
`opacity * 255` to `u8`; any other paint falls back. -/
def fillColor (fill : Fill) : GpuColor :=
  match fill.paint with
  | .color r g b => ⟨r, g, b, f64AsU8 (fill.opacity * 255)⟩
  | .link => FALLBACK_COLOR

/-- `fn convert_stroke`. -/
def convert_stroke (s : Stroke) : GpuColor × StrokeOptions :=
  let color :=
    match s.paint with
    | .color r g b => GpuColor.mk r g b (f64AsU8 (s.opacity * 255))
    | .link => FALLBACK_COLOR
  let linecap :=
    match s.linecap with
    | .butt => TessLineCap.butt
    | .square => TessLineCap.square
    | .round => TessLineCap.round
  let linejoin :=
    match s.linejoin with
    | .miter => TessLineJoin.miter
    | .bevel => TessLineJoin.bevel
    | .round => TessLineJoin.round
  (color, ⟨TOLERANCE, s.width, linecap, linejoin⟩)

/-! ### Transforms -/

/-- `usvg::Transform`: six `f64` scalars. -/
structure Transform6 where
  a : F64
  b : F64
  c : F64
  d : F64
  e : F64
  f : F64
deriving DecidableEq

/-- The derived `PartialEq` on `usvg::Transform`: field-wise IEEE
equality of the `f64` entries. The source's `t != prev_transform` is the
negation of this. -/
def Transform6.feq (s t : Transform6) : Bool :=
  F64.feq s.a t.a && F64.feq s.b t.b && F64.feq s.c t.c &&
    F64.feq s.d t.d && F64.feq s.e t.e && F64.feq s.f t.f

/-- The NaN-seeded sentinel `prev_transform` is initialized with. -/
def nanTransform : Transform6 :=
  ⟨.nan 0, .nan 0, .nan 0, .nan 0, .nan 0, .nan 0⟩

/-- `GpuTransform`: the two packed 4-float GPU rows. -/
structure GpuTransform where
  data0 : List F64
  data1 : List F64
deriving DecidableEq

/-- The record pushed for a transform `t`:
`data0 = [a, b, c, d]`, `data1 = [e, f, 0, 0]` (the `f64 -> f32`
narrowing of the entries is value-preserving in this model). -/
def GpuTransform.ofTransform (t : Transform6) : GpuTransform :=
  ⟨[t.a, t.b, t.c, t.d], [t.e, t.f, .zero false, .zero false]⟩

/-! ### The engine oracle, mesh buffers and the driver -/

/-- `GpuVertex`: a position and the owning primitive's index. -/
structure GpuVertex where
  position : ℚ × ℚ
  prim_id : Nat
deriving DecidableEq

/-- `lyon::VertexBuffers`. -/
structure VertexBuffers where
  vertices : List GpuVertex
  indices : List Nat
deriving DecidableEq

/-- Outcome of one external triangulation pass over a shape: the raw
vertex positions and pass-local triangle indices it emits, or an
unrecoverable failure. -/
inductive EngineResult where
  | ok (verts : List (ℚ × ℚ)) (idxs : List Nat)
  | err
deriving DecidableEq

/-- `BuffersBuilder::new(&mut mesh, VertexCtor { prim_id })` fed to a
tessellator: on success every emitted vertex is tagged with `prim_id`
(the `FillVertexConstructor`/`StrokeVertexConstructor` impls) and
appended to the shared buffer, and the pass-local indices are offset by
the vertex count at pass start; on failure the pass contributes
nothing. -/
def runPass (mesh : VertexBuffers) (primId : Nat) :
    EngineResult → Option VertexBuffers
  | .ok vs is =>
    some ⟨mesh.vertices ++ vs.map (fun p => ⟨p, primId⟩),
          mesh.indices ++ is.map (fun i => i + mesh.vertices.length)⟩
  | .err => none

/-- `GpuPrimitive::new(transform_idx, color)`. -/
structure GpuPrimitive where
  transform_idx : Nat
  color : GpuColor
deriving DecidableEq

/-- A `usvg::NodeKind::Path` node: its resolved transform, optional fill
and stroke, and the oracle outcomes of the two engine passes over its
segment data. -/
structure PathShape where
  transform : Transform6
  fill : Option Fill
  stroke : Option Stroke
  fillResult : EngineResult
  strokeResult : EngineResult

/-- A node of the scene tree's descendant traversal: a path node, or any
other node kind (skipped by the driver's `if let`). -/
inductive Node where
  | path (p : PathShape)
  | other

/-- `TessellationData`. -/
structure TessellationData where
  vertices : List GpuVertex
  indices : List Nat
  transforms : List GpuTransform
  primitives : List GpuPrimitive
deriving DecidableEq

/-- The sources of a panic inside `tessellate`. -/
inductive PanicSource where
  | stateUnwrap
  | fillExpect
deriving DecidableEq

/-- `Box<dyn Error + Send + Sync>`: the function's error type. No code
path in `tessellate` ever constructs one, so the model type is empty. -/
inductive RunError

instance : DecidableEq RunError := fun a => nomatch a

/-- What a call to `tessellate` does: returns `Ok`, returns `Err`, or
panics (which returns nothing at all to the caller). -/
inductive TessOutcome where
  | ok (data : TessellationData)
  | errReturn (e : RunError)
  | panicked (src : PanicSource)
deriving DecidableEq

/-- The fill half of the loop body (`if let Some(ref fill) = p.fill`,
lines 89–116): resolve the paint, push the fill `GpuPrimitive`, run the
fill tessellator tagging vertices with `primitives.len() - 1`; an engine
failure hits `.expect`, aborting everything. -/
def fillPass (p : PathShape) (transform_idx : Nat) (mesh : VertexBuffers)
    (primitives : List GpuPrimitive) :
    Except PanicSource (VertexBuffers × List GpuPrimitive) :=
  match p.fill with
  | some fill =>
    let color := fillColor fill
    let primitives2 := primitives ++ [GpuPrimitive.mk transform_idx color]
    match runPass mesh (primitives2.length - 1) p.fillResult with
    | none => .error .fillExpect
    | some mesh2 => .ok (mesh2, primitives2)
  | none => .ok (mesh, primitives)

/-- The stroke half of the loop body (`if let Some(ref stroke) =
p.stroke`, lines 118–132): push the stroke `GpuPrimitive`, run the
stroke tessellator tagging vertices with the new `primitives.len() - 1`;
an engine failure is discarded by `let _ =` — the primitive it pushed
stays. -/
def strokePass (p : PathShape) (transform_idx : Nat) (mesh : VertexBuffers)
    (primitives : List GpuPrimitive) : VertexBuffers × List GpuPrimitive :=
  match p.stroke with
  | some stroke =>
    let stroke_color := (convert_stroke stroke).1
    let primitives2 :=
      primitives ++ [GpuPrimitive.mk transform_idx stroke_color]
    match runPass mesh (primitives2.length - 1) p.strokeResult with
    | none => (mesh, primitives2)
    | some mesh2 => (mesh2, primitives2)
  | none => (mesh, primitives)

/-- The `for node in ... descendants()` loop of
`LyonTessellator::tessellate`, one recursion step per node: skip
non-path nodes, dedup the transform against `prev_transform`, compute
`transform_idx = transforms.len() - 1`, then the fill pass followed by
the stroke pass. -/
def tessLoop : List Node → Transform6 → VertexBuffers →
    List GpuTransform → List GpuPrimitive →
    Except PanicSource (VertexBuffers × List GpuTransform × List GpuPrimitive)
  | [], _, mesh, transforms, primitives => .ok (mesh, transforms, primitives)
  | .other :: rest, prev_transform, mesh, transforms, primitives =>
    tessLoop rest prev_transform mesh transforms primitives
  | .path p :: rest, prev_transform, mesh, transforms, primitives =>
    let t := p.transform
    let transforms2 :=
      if Transform6.feq t prev_transform then transforms
      else transforms ++ [GpuTransform.ofTransform t]
    let transform_idx := transforms2.length - 1
    match fillPass p transform_idx mesh primitives with
    | .error e => .error e
    | .ok (mesh2, primitives2) =>
      let strokeStep := strokePass p transform_idx mesh2 primitives2
      tessLoop rest t strokeStep.1 transforms2 strokeStep.2

/-- `LyonState`: the parsed tree, reduced to its descendant traversal. -/
structure LyonState where
  nodes : List Node

/-- `pub struct LyonTessellator { state: Option<LyonState> }`. -/
structure LyonTessellator where
  state : Option LyonState

/-- `LyonTessellator::new`. -/
def LyonTessellator.new : LyonTessellator := ⟨none⟩

/-- `LyonTessellator::tessellate`: unwraps the state (panicking when
`init` has not filled it), runs the walk, and packs the result. -/
def LyonTessellator.tessellate (self : LyonTessellator) : TessOutcome :=
  match self.state with
  | none => .panicked .stateUnwrap
  | some st =>
    match tessLoop st.nodes nanTransform ⟨[], []⟩ [] [] with
    | .error src => .panicked src
    | .ok (mesh, transforms, primitives) =>
      .ok ⟨mesh.vertices, mesh.indices, transforms, primitives⟩

/-! ### Derived views of the walk -/

/-- The resolved transforms of the path nodes, in traversal order. -/
def pathTransforms : List Node → List Transform6
  | [] => []
  | .path p :: rest => p.transform :: pathTransforms rest
  | .other :: rest => pathTransforms rest

/-- The value of `prev_transform` after the walk has consumed a list of
nodes, starting from `prev`. -/
def lastTransform (prev : Transform6) : List Node → Transform6
  | [] => prev
  | .path p :: rest => lastTransform p.transform rest
  | .other :: rest => lastTransform prev rest

/-- The transform records the dedup logic appends while walking a
transform list with `prev_transform = prev`: an append exactly when the
IEEE comparison `t != prev` holds. -/
def dedupTransforms (prev : Transform6) : List Transform6 → List GpuTransform
  | [] => []
  | t :: ts =>
    (if Transform6.feq t prev then [] else [GpuTransform.ofTransform t]) ++
      dedupTransforms t ts

/-- The `transform_idx = transforms.len() - 1` value assigned to each
shape, walking a transform list with `prev_transform = prev` and
`transforms.len() = len`. -/
def dedupIdxs (prev : Transform6) (len : Nat) : List Transform6 → List Nat
  | [] => []
  | t :: ts =>
    let len2 := if Transform6.feq t prev then len else len + 1
    (len2 - 1) :: dedupIdxs t len2 ts

/-- Number of entries whose transform is not IEEE-equal to its
predecessor's (against `prev` for the first). -/
def countChanges (prev : Transform6) : List Transform6 → Nat
  | [] => 0
  | t :: ts => (if Transform6.feq t prev then 0 else 1) + countChanges t ts

/-- Number of maximal runs of consecutive transforms related by `eqv`
(tail of the run counter). Written from the spec's words, for comparing
the code's dedup count against the claimed one. -/
def countRunsTail (eqv : Transform6 → Transform6 → Bool) (prev : Transform6) :
    List Transform6 → Nat
  | [] => 0
  | t :: ts => (if eqv t prev then 0 else 1) + countRunsTail eqv t ts

/-- Number of maximal runs of consecutive transforms related by `eqv`.
Written from the spec's words (`eqv` instantiated with bit-identity is
the claim's run count; with `Transform6.feq` it is the IEEE one). -/
def countRunsBy (eqv : Transform6 → Transform6 → Bool) :
    List Transform6 → Nat
  | [] => 0
  | t :: ts => 1 + countRunsTail eqv t ts

/-! ### Concrete scenes for the driver claims -/

/-- The all-`+0.0` transform. -/
def zeroTransform : Transform6 :=
  ⟨.zero false, .zero false, .zero false, .zero false, .zero false,
   .zero false⟩

/-- Same bits as `zeroTransform` except `a = -0.0`: bit-different,
IEEE-equal. -/
def negZeroTransform : Transform6 :=
  ⟨.zero true, .zero false, .zero false, .zero false, .zero false,
   .zero false⟩

/-- C2 scene: first shape fills fine (one vertex), second shape's fill
pass fails. -/
def c2Shape1 : PathShape :=
  ⟨zeroTransform, some ⟨.color 10 20 30, 1⟩, none, .ok [(0, 0)] [0], .err⟩

def c2Shape2 : PathShape :=
  ⟨zeroTransform, some ⟨.color 10 20 30, 1⟩, none, .err, .err⟩

def c2Tess : LyonTessellator := ⟨some ⟨[.path c2Shape1, .path c2Shape2]⟩⟩

/-- C3 scene: a single stroke-only shape whose stroke pass fails. -/
def c3Stroke : Stroke := ⟨.color 1 2 3, 1, 2, .butt, .miter⟩

def c3Shape : PathShape := ⟨zeroTransform, none, some c3Stroke, .err, .err⟩

def c3Tess : LyonTessellator := ⟨some ⟨[.path c3Shape]⟩⟩

/-- C7 scene: two shapes whose transforms are bit-different but
IEEE-equal (`+0.0` vs `-0.0`). -/
def c7Shape1 : PathShape := ⟨zeroTransform, none, none, .err, .err⟩

def c7Shape2 : PathShape := ⟨negZeroTransform, none, none, .err, .err⟩

def c7Tess : LyonTessellator := ⟨some ⟨[.path c7Shape1, .path c7Shape2]⟩⟩

def c7Data : TessellationData :=
  ⟨[], [], [GpuTransform.ofTransform zeroTransform], []⟩

/-- C8 scene: one shape with both fill and stroke, both passes
succeeding. -/
def c8Fill : Fill := ⟨.color 10 20 30, 1⟩

def c8Stroke : Stroke := ⟨.color 1 2 3, 1, 2, .butt, .miter⟩

def c8Shape : PathShape :=
  ⟨zeroTransform, some c8Fill, some c8Stroke,
   .ok [(0, 0), (1, 0)] [0, 1], .ok [(5, 5)] [0]⟩

def c8Tess : LyonTessellator := ⟨some ⟨[.path c8Shape]⟩⟩

def c8Data : TessellationData :=
  ⟨[⟨(0, 0), 0⟩, ⟨(1, 0), 0⟩, ⟨(5, 5), 1⟩], [0, 1, 2],
   [GpuTransform.ofTransform zeroTransform],
   [⟨0, ⟨10, 20, 30, 255⟩⟩, ⟨0, ⟨1, 2, 3, 255⟩⟩]⟩

/-- C9 scene: one gradient-filled shape whose geometry tessellates
fine. -/
def c9Fill : Fill := ⟨.link, 1⟩

def c9Shape : PathShape :=
  ⟨zeroTransform, some c9Fill, none, .ok [(0, 0)] [0], .err⟩

def c9Tess : LyonTessellator := ⟨some ⟨[.path c9Shape]⟩⟩

def c9Data : TessellationData :=
  ⟨[⟨(0, 0), 0⟩], [0], [GpuTransform.ofTransform zeroTransform],
   [⟨0, FALLBACK_COLOR⟩]⟩

theorem F64.feq_comm (a b : F64) : F64.feq a b = F64.feq b a := by
  cases a <;> cases b <;> simp [F64.feq, BEq.comm]

theorem F64.feq_chain {a b c : F64} (h1 : F64.feq a b = true)
    (h2 : F64.feq b c = true) : F64.feq a c = true := by
  cases a <;> cases b <;> cases c <;>
    simp_all [F64.feq, beq_iff_eq]

theorem F64.feq_nan_right (a : F64) (p : Nat) : F64.feq a (.nan p) = false := by
  cases a <;> rfl

/-- `emitAll` is the fixpoint of `next`: the collector really is the
stream of the transcribed iterator. -/
theorem emitAll_eq_next (it : PathConvIter) :
    emitAll it = (match it.next with
      | none => []
      | some (ev, it2) => ev :: emitAll it2) := by
  obtain ⟨segs, prev, first, ne, deferred⟩ := it
  cases deferred with
  | some ev => rfl
  | none =>
    cases segs with
    | nil => cases ne <;> rfl
    | cons s rest => cases s <;> cases ne <;> rfl

theorem pathEvents_def (segs : List PathSegment) :
    pathEvents segs = emitNone segs (Point.mk 0 0) (Point.mk 0 0) false := rfl

theorem segsOkFrom_cons {st : SubpathState} {s : PathSegment}
    {rest : List PathSegment} {st2 : SubpathState}
    (h : segStep st s = some st2) :
    segsOkFrom st (s :: rest) = segsOkFrom st2 rest := by
  simp [segsOkFrom, segRun, h]

/-- Master invariant: from any adapter state matching an accepted
automaton state, the emitted events drive the well-formedness automaton
from `inside` to a successful final `false`. -/
theorem wfRun_emitNone (segs : List PathSegment) :
    ∀ (st : SubpathState) (prev first : Point),
      segsOkFrom st segs = true →
      wfRun st.inside (emitNone segs prev first st.ne) = some false := by
  induction segs with
  | nil =>
    intro st prev first h
    cases st <;> simp_all [segsOkFrom, segRun, SubpathState.inside,
      SubpathState.ne, emitNone, wfRun, wfStep]
  | cons s rest ih =>
    intro st prev first h
    cases s with
    | moveTo x y =>
      cases st with
      | closed =>
        rw [segsOkFrom_cons (by rfl)] at h
        simpa [SubpathState.inside, SubpathState.ne, emitNone, wfRun,
          wfStep] using ih .opened prev (point x y) h
      | opened =>
        rw [segsOkFrom_cons (by rfl)] at h
        simpa [SubpathState.inside, SubpathState.ne, emitNone, wfRun,
          wfStep] using ih .reopened (point x y) (point x y) h
      | reopened => simp [segsOkFrom, segRun, segStep] at h
    | lineTo x y =>
      cases st with
      | closed => simp [segsOkFrom, segRun, segStep] at h
      | opened =>
        rw [segsOkFrom_cons (by rfl)] at h
        simpa [SubpathState.inside, SubpathState.ne, emitNone, wfRun,
          wfStep] using ih .opened (point x y) first h
      | reopened =>
        rw [segsOkFrom_cons (by rfl)] at h
        simpa [SubpathState.inside, SubpathState.ne, emitNone, wfRun,
          wfStep] using ih .opened (point x y) first h
    | curveTo x1 y1 x2 y2 x y =>
      cases st with
      | closed => simp [segsOkFrom, segRun, segStep] at h
      | opened =>
        rw [segsOkFrom_cons (by rfl)] at h
        simpa [SubpathState.inside, SubpathState.ne, emitNone, wfRun,
          wfStep] using ih .opened (point x y) first h
      | reopened =>
        rw [segsOkFrom_cons (by rfl)] at h
        simpa [SubpathState.inside, SubpathState.ne, emitNone, wfRun,
          wfStep] using ih .opened (point x y) first h
    | closePath =>
      cases st with
      | closed => simp [segsOkFrom, segRun, segStep] at h
      | opened =>
        rw [segsOkFrom_cons (by rfl)] at h
        simpa [SubpathState.inside, SubpathState.ne, emitNone, wfRun,
          wfStep] using ih .closed first first h
      | reopened =>
        rw [segsOkFrom_cons (by rfl)] at h
        simpa [SubpathState.inside, SubpathState.ne, emitNone, wfRun,
          wfStep] using ih .closed first first h

/-- A closed `End` event can only come from an explicit `ClosePath`
segment, for every adapter state. -/
theorem isCloseEnd_mem_emitNone (segs : List PathSegment) :
    ∀ (prev first : Point) (ne : Bool) (e : PathEvent),
      e ∈ emitNone segs prev first ne → e.isCloseEnd = true →
      PathSegment.closePath ∈ segs := by
  induction segs with
  | nil =>
    intro prev first ne e hmem hclose
    cases ne with
    | false => simp [emitNone] at hmem
    | true =>
      simp [emitNone] at hmem
      simp_all [PathEvent.isCloseEnd]
  | cons s rest ih =>
    intro prev first ne e hmem hclose
    cases s with
    | moveTo x y =>
      cases ne with
      | false =>
        simp [emitNone] at hmem
        rcases hmem with h | h
        · subst h; simp [PathEvent.isCloseEnd] at hclose
        · exact List.mem_cons_of_mem _ (ih _ _ _ _ h hclose)
      | true =>
        simp [emitNone] at hmem
        rcases hmem with h | h | h
        · subst h; simp [PathEvent.isCloseEnd] at hclose
        · subst h; simp [PathEvent.isCloseEnd] at hclose
        · exact List.mem_cons_of_mem _ (ih _ _ _ _ h hclose)
    | lineTo x y =>
      simp [emitNone] at hmem
      rcases hmem with h | h
      · subst h; simp [PathEvent.isCloseEnd] at hclose
      · exact List.mem_cons_of_mem _ (ih _ _ _ _ h hclose)
    | curveTo x1 y1 x2 y2 x y =>
      simp [emitNone] at hmem
      rcases hmem with h | h
      · subst h; simp [PathEvent.isCloseEnd] at hclose
      · exact List.mem_cons_of_mem _ (ih _ _ _ _ h hclose)
    | closePath =>
      exact List.mem_cons_self _ _

theorem Transform6.feq_symm (s t : Transform6) :
    Transform6.feq s t = Transform6.feq t s := by
  simp [Transform6.feq, F64.feq_comm s.a, F64.feq_comm s.b,
    F64.feq_comm s.c, F64.feq_comm s.d, F64.feq_comm s.e, F64.feq_comm s.f]

theorem Transform6.feq_trans {s t u : Transform6}
    (h1 : Transform6.feq s t = true) (h2 : Transform6.feq t u = true) :
    Transform6.feq s u = true := by
  simp only [Transform6.feq, Bool.and_eq_true] at h1 h2 ⊢
  exact ⟨⟨⟨⟨⟨F64.feq_chain h1.1.1.1.1.1 h2.1.1.1.1.1,
    F64.feq_chain h1.1.1.1.1.2 h2.1.1.1.1.2⟩,
    F64.feq_chain h1.1.1.1.2 h2.1.1.1.2⟩,
    F64.feq_chain h1.1.1.2 h2.1.1.2⟩,
    F64.feq_chain h1.1.2 h2.1.2⟩,
    F64.feq_chain h1.2 h2.2⟩

theorem Transform6.feq_nanTransform (t : Transform6) :
    Transform6.feq t nanTransform = false := by
  simp [Transform6.feq, nanTransform, F64.feq_nan_right]

theorem countChanges_eq_countRunsTail (ts : List Transform6)
    (prev : Transform6) :
    countChanges prev ts = countRunsTail Transform6.feq prev ts := by
  induction ts generalizing prev with
  | nil => rfl
  | cons t ts ih => simp [countChanges, countRunsTail, ih]

/-- Seeded with the NaN sentinel, the change count is exactly the
IEEE-equality run count. -/
theorem countChanges_nan (ts : List Transform6) :
    countChanges nanTransform ts = countRunsBy Transform6.feq ts := by
  cases ts with
  | nil => rfl
  | cons t ts =>
    simp [countChanges, countRunsBy, Transform6.feq_nanTransform,
      countChanges_eq_countRunsTail]

theorem dedupTransforms_length (ts : List Transform6) (prev : Transform6) :
    (dedupTransforms prev ts).length = countChanges prev ts := by
  induction ts generalizing prev with
  | nil => rfl
  | cons t ts ih =>
    by_cases h : Transform6.feq t prev <;>
      simp [dedupTransforms, countChanges, h, ih, Nat.add_comm]

/-! ### Pass-level lemmas -/

theorem fillPass_none {p : PathShape} {tidx : Nat} {mesh : VertexBuffers}
    {P : List GpuPrimitive} (h : p.fill = none) :
    fillPass p tidx mesh P = .ok (mesh, P) := by
  simp [fillPass, h]

theorem fillPass_some_ok {p : PathShape} {tidx : Nat} {mesh : VertexBuffers}
    {P : List GpuPrimitive} {f : Fill} {vs : List (ℚ × ℚ)} {is : List Nat}
    (hf : p.fill = some f) (hr : p.fillResult = .ok vs is) :
    fillPass p tidx mesh P = .ok
      (⟨mesh.vertices ++ vs.map (fun q => ⟨q, P.length⟩),
        mesh.indices ++ is.map (fun i => i + mesh.vertices.length)⟩,
       P ++ [⟨tidx, fillColor f⟩]) := by
  simp [fillPass, hf, hr, runPass]

theorem fillPass_some_err {p : PathShape} {tidx : Nat} {mesh : VertexBuffers}
    {P : List GpuPrimitive} {f : Fill}
    (hf : p.fill = some f) (hr : p.fillResult = .err) :
    fillPass p tidx mesh P = .error .fillExpect := by
  simp [fillPass, hf, hr, runPass]

theorem fillPass_error {p : PathShape} {tidx : Nat} {mesh : VertexBuffers}
    {P : List GpuPrimitive} {e : PanicSource}
    (h : fillPass p tidx mesh P = .error e) : e = .fillExpect := by
  unfold fillPass at h
  cases hf : p.fill with
  | none => simp [hf] at h
  | some f =>
    cases hr : p.fillResult with
    | ok vs is => simp [hf, hr, runPass] at h
    | err => simp [hf, hr, runPass] at h; exact h.symm

/-- Any successful fill pass only appends: framing shape. -/
theorem fillPass_ok_frame {p : PathShape} {tidx : Nat} {mesh : VertexBuffers}
    {P : List GpuPrimitive} {mesh2 : VertexBuffers} {P2 : List GpuPrimitive}
    (h : fillPass p tidx mesh P = .ok (mesh2, P2)) :
    ∃ dv di dP, mesh2.vertices = mesh.vertices ++ dv ∧
      mesh2.indices = mesh.indices ++ di ∧ P2 = P ++ dP := by
  unfold fillPass at h
  cases hf : p.fill with
  | none =>
    simp [hf] at h
    exact ⟨[], [], [], by simp [← h.1], by simp [← h.1], by simp [← h.2]⟩
  | some f =>
    cases hr : p.fillResult with
    | err => simp [hf, hr, runPass] at h
    | ok vs is =>
      simp [hf, hr, runPass] at h
      refine ⟨vs.map (fun q => ⟨q, P.length⟩),
        is.map (fun i => i + mesh.vertices.length),
        [⟨tidx, fillColor f⟩], ?_, ?_, ?_⟩ <;> simp [← h.1, ← h.2]

theorem strokePass_none {p : PathShape} {tidx : Nat} {mesh : VertexBuffers}
    {P : List GpuPrimitive} (h : p.stroke = none) :
    strokePass p tidx mesh P = (mesh, P) := by
  simp [strokePass, h]

theorem strokePass_some_ok {p : PathShape} {tidx : Nat} {mesh : VertexBuffers}
    {P : List GpuPrimitive} {s : Stroke} {vs : List (ℚ × ℚ)} {is : List Nat}
    (hs : p.stroke = some s) (hr : p.strokeResult = .ok vs is) :
    strokePass p tidx mesh P =
      (⟨mesh.vertices ++ vs.map (fun q => ⟨q, P.length⟩),
        mesh.indices ++ is.map (fun i => i + mesh.vertices.length)⟩,
       P ++ [⟨tidx, (convert_stroke s).1⟩]) := by
  simp [strokePass, hs, hr, runPass]

theorem strokePass_some_err {p : PathShape} {tidx : Nat} {mesh : VertexBuffers}
    {P : List GpuPrimitive} {s : Stroke}
    (hs : p.stroke = some s) (hr : p.strokeResult = .err) :
    strokePass p tidx mesh P = (mesh, P ++ [⟨tidx, (convert_stroke s).1⟩]) := by
  simp [strokePass, hs, hr, runPass]

/-- Any stroke pass only appends: framing shape. -/
theorem strokePass_frame (p : PathShape) (tidx : Nat) (mesh : VertexBuffers)
    (P : List GpuPrimitive) :
    ∃ dv di dP, (strokePass p tidx mesh P).1.vertices = mesh.vertices ++ dv ∧
      (strokePass p tidx mesh P).1.indices = mesh.indices ++ di ∧
      (strokePass p tidx mesh P).2 = P ++ dP := by
  cases hs : p.stroke with
  | none => exact ⟨[], [], [], by simp [strokePass_none hs]⟩
  | some s =>
    cases hr : p.strokeResult with
    | err =>
      exact ⟨[], [], [⟨tidx, (convert_stroke s).1⟩],
        by simp [strokePass_some_err hs hr]⟩
    | ok vs is =>
      exact ⟨vs.map (fun q => ⟨q, P.length⟩),
        is.map (fun i => i + mesh.vertices.length),
        [⟨tidx, (convert_stroke s).1⟩],
        by simp [strokePass_some_ok hs hr]⟩

/-! ### Loop-level lemmas -/

/-- The walk only ever appends to the mesh, transform and primitive
accumulators. -/
theorem tessLoop_frame (nodes : List Node) :
    ∀ (prev : Transform6) (mesh : VertexBuffers) (T : List GpuTransform)
      (P : List GpuPrimitive) (m2 : VertexBuffers) (T2 : List GpuTransform)
      (P2 : List GpuPrimitive),
      tessLoop nodes prev mesh T P = .ok (m2, T2, P2) →
      ∃ dv di dT dP, m2.vertices = mesh.vertices ++ dv ∧
        m2.indices = mesh.indices ++ di ∧ T2 = T ++ dT ∧ P2 = P ++ dP := by
  induction nodes with
  | nil =>
    intro prev mesh T P m2 T2 P2 h
    simp only [tessLoop, Except.ok.injEq, Prod.mk.injEq] at h
    exact ⟨[], [], [], [], by simp [h.1], by simp [h.1], by simp [h.2.1],
      by simp [h.2.2]⟩
  | cons n rest ih =>
    cases n with
    | other =>
      intro prev mesh T P m2 T2 P2 h
      exact ih prev mesh T P m2 T2 P2 h
    | path p =>
      intro prev mesh T P m2 T2 P2 h
      simp only [tessLoop] at h
      cases hfp : fillPass p
          ((if Transform6.feq p.transform prev then T
            else T ++ [GpuTransform.ofTransform p.transform]).length - 1)
          mesh P with
      | error e => rw [hfp] at h; simp at h
      | ok pr =>
        obtain ⟨mesh2, P2x⟩ := pr
        rw [hfp] at h
        simp only at h
        obtain ⟨dv1, di1, dP1, hv1, hi1, hp1⟩ := fillPass_ok_frame hfp
        obtain ⟨dv2, di2, dP2, hv2, hi2, hp2⟩ := strokePass_frame p
          ((if Transform6.feq p.transform prev then T
            else T ++ [GpuTransform.ofTransform p.transform]).length - 1)
          mesh2 P2x
        obtain ⟨dv3, di3, dT3, dP3, hv3, hi3, ht3, hp3⟩ :=
          ih _ _ _ _ _ _ _ h
        refine ⟨dv1 ++ dv2 ++ dv3, di1 ++ di2 ++ di3, ?_, ?_, ?_, ?_, ?_, ?_⟩
        · exact (if Transform6.feq p.transform prev then []
            else [GpuTransform.ofTransform p.transform]) ++ dT3
        · exact dP1 ++ dP2 ++ dP3
        · simp [hv3, hv2, hv1]
        · simp [hi3, hi2, hi1]
        · rw [ht3]; split <;> simp
        · rw [hp3, hp2, hp1]; simp

/-- The only panic the loop itself can signal is the fill `.expect`. -/
theorem tessLoop_error_fillExpect (nodes : List Node) :
    ∀ (prev : Transform6) (mesh : VertexBuffers) (T : List GpuTransform)
      (P : List GpuPrimitive) (e : PanicSource),
      tessLoop nodes prev mesh T P = .error e → e = .fillExpect := by
  induction nodes with
  | nil => intro prev mesh T P e h; simp [tessLoop] at h
  | cons n rest ih =>
    cases n with
    | other => intro prev mesh T P e h; exact ih _ _ _ _ _ h
    | path p =>
      intro prev mesh T P e h
      simp only [tessLoop] at h
      cases hfp : fillPass p
          ((if Transform6.feq p.transform prev then T
            else T ++ [GpuTransform.ofTransform p.transform]).length - 1)
          mesh P with
      | error e2 =>
        rw [hfp] at h
        simp only [Except.error.injEq] at h
        rw [← h]
        exact fillPass_error hfp
      | ok pr =>
        obtain ⟨mesh2, P2x⟩ := pr
        rw [hfp] at h
        exact ih _ _ _ _ _ h

/-- Sequencing: walking `xs ++ ys` is walking `xs`, then walking `ys`
from the state `xs` left behind. -/
theorem tessLoop_append (xs : List Node) :
    ∀ (ys : List Node) (prev : Transform6) (mesh : VertexBuffers)
      (T : List GpuTransform) (P : List GpuPrimitive),
      tessLoop (xs ++ ys) prev mesh T P =
        (match tessLoop xs prev mesh T P with
         | .error e => .error e
         | .ok (m, T1, P1) => tessLoop ys (lastTransform prev xs) m T1 P1) := by
  induction xs with
  | nil => intro ys prev mesh T P; rfl
  | cons n rest ih =>
    cases n with
    | other => intro ys prev mesh T P; exact ih ys prev mesh T P
    | path p =>
      intro ys prev mesh T P
      simp only [List.cons_append, tessLoop]
      cases hfp : fillPass p
          ((if Transform6.feq p.transform prev then T
            else T ++ [GpuTransform.ofTransform p.transform]).length - 1)
          mesh P with
      | error e => rfl
      | ok pr =>
        obtain ⟨mesh2, P2x⟩ := pr
        simp only [List.append_eq]
        rw [ih]
        simp only [lastTransform]

/-- Any node with a present fill whose engine pass fails makes the whole
walk abort with the fill panic — not just the nodes before it. -/
theorem tessLoop_fail (nodes : List Node) :
    ∀ (prev : Transform6) (mesh : VertexBuffers) (T : List GpuTransform)
      (P : List GpuPrimitive),
      (∃ p f, Node.path p ∈ nodes ∧ p.fill = some f ∧ p.fillResult = .err) →
      tessLoop nodes prev mesh T P = .error .fillExpect := by
  induction nodes with
  | nil =>
    intro prev mesh T P h
    obtain ⟨p, f, hmem, _, _⟩ := h
    simp at hmem
  | cons n rest ih =>
    intro prev mesh T P h
    obtain ⟨p, f, hmem, hf, hr⟩ := h
    cases n with
    | other =>
      have : Node.path p ∈ rest := by
        rcases List.mem_cons.mp hmem with h1 | h1
        · exact absurd h1 (by simp)
        · exact h1
      exact ih _ _ _ _ ⟨p, f, this, hf, hr⟩
    | path q =>
      rcases List.mem_cons.mp hmem with h1 | h1
      · have hpq : q = p := (Node.path.inj h1).symm
        subst hpq
        simp only [tessLoop]
        rw [fillPass_some_err hf hr]
      · simp only [tessLoop]
        cases hfp : fillPass q
            ((if Transform6.feq q.transform prev then T
              else T ++ [GpuTransform.ofTransform q.transform]).length - 1)
            mesh P with
        | error e =>
          have he := fillPass_error hfp
          subst he
          rfl
        | ok pr =>
          obtain ⟨mesh2, P2x⟩ := pr
          exact ih _ _ _ _ ⟨p, f, h1, hf, hr⟩

/-- If every present fill tessellates, the walk succeeds (stroke
failures never abort it). -/
theorem tessLoop_ok_of_fills (nodes : List Node) :
    ∀ (prev : Transform6) (mesh : VertexBuffers) (T : List GpuTransform)
      (P : List GpuPrimitive),
      (∀ q f, Node.path q ∈ nodes → q.fill = some f → q.fillResult ≠ .err) →
      ∃ r, tessLoop nodes prev mesh T P = .ok r := by
  induction nodes with
  | nil => intro prev mesh T P _; exact ⟨_, rfl⟩
  | cons n rest ih =>
    intro prev mesh T P h
    cases n with
    | other =>
      exact ih prev mesh T P (fun q f hq => h q f (List.mem_cons_of_mem _ hq))
    | path p =>
      simp only [tessLoop]
      have hrest : ∀ q f, Node.path q ∈ rest → q.fill = some f →
          q.fillResult ≠ .err :=
        fun q f hq => h q f (List.mem_cons_of_mem _ hq)
      cases hf : p.fill with
      | none =>
        rw [fillPass_none hf]
        exact ih _ _ _ _ hrest
      | some f =>
        cases hr : p.fillResult with
        | err => exact absurd hr (h p f (List.mem_cons_self _ _) hf)
        | ok vs is =>
          rw [fillPass_some_ok hf hr]
          exact ih _ _ _ _ hrest

/-- `fillPass` never reads the stroke oracle. -/
theorem fillPass_update_stroke (p : PathShape) (r : EngineResult)
    (tidx : Nat) (mesh : VertexBuffers) (P : List GpuPrimitive) :
    fillPass { p with strokeResult := r } tidx mesh P =
      fillPass p tidx mesh P := rfl

/-- Discarding a stroke failure is observationally the same as a stroke
pass that succeeds emitting nothing: the whole walk result agrees. -/
theorem tessLoop_stroke_err_congr (pre : List Node) :
    ∀ (rest : List Node) (p : PathShape) (prev : Transform6)
      (mesh : VertexBuffers) (T : List GpuTransform) (P : List GpuPrimitive),
      p.strokeResult = .err →
      tessLoop (pre ++ .path p :: rest) prev mesh T P =
        tessLoop (pre ++ .path { p with strokeResult := .ok [] [] } :: rest)
          prev mesh T P := by
  induction pre with
  | nil =>
    intro rest p prev mesh T P hserr
    simp only [List.nil_append, tessLoop, fillPass_update_stroke]
    cases hfp : fillPass p
        ((if Transform6.feq p.transform prev then T
          else T ++ [GpuTransform.ofTransform p.transform]).length - 1)
        mesh P with
    | error e => rfl
    | ok pr =>
      obtain ⟨mesh2, P2x⟩ := pr
      simp only
      cases hs : p.stroke with
      | none => simp [strokePass, hs]
      | some s =>
        rw [strokePass_some_err hs hserr]
        simp [strokePass, runPass]
  | cons n pre2 ih =>
    intro rest p prev mesh T P hserr
    cases n with
    | other => exact ih rest p prev mesh T P hserr
    | path q =>
      simp only [List.cons_append, tessLoop]
      cases hfp : fillPass q
          ((if Transform6.feq q.transform prev then T
            else T ++ [GpuTransform.ofTransform q.transform]).length - 1)
          mesh P with
      | error e => rfl
      | ok pr =>
        obtain ⟨mesh2, P2x⟩ := pr
        exact ih rest p _ _ _ _ hserr

/-- The transform list a successful walk returns is the accumulator plus
the dedup of the path transforms (fills and strokes never touch it). -/
theorem tessLoop_transforms (nodes : List Node) :
    ∀ (prev : Transform6) (mesh : VertexBuffers) (T : List GpuTransform)
      (P : List GpuPrimitive) (m2 : VertexBuffers) (T2 : List GpuTransform)
      (P2 : List GpuPrimitive),
      tessLoop nodes prev mesh T P = .ok (m2, T2, P2) →
      T2 = T ++ dedupTransforms prev (pathTransforms nodes) := by
  induction nodes with
  | nil =>
    intro prev mesh T P m2 T2 P2 h
    simp only [tessLoop, Except.ok.injEq, Prod.mk.injEq] at h
    simp [pathTransforms, dedupTransforms, h.2.1]
  | cons n rest ih =>
    cases n with
    | other =>
      intro prev mesh T P m2 T2 P2 h
      exact ih prev mesh T P m2 T2 P2 h
    | path p =>
      intro prev mesh T P m2 T2 P2 h
      simp only [tessLoop] at h
      cases hfp : fillPass p
          ((if Transform6.feq p.transform prev then T
            else T ++ [GpuTransform.ofTransform p.transform]).length - 1)
          mesh P with
      | error e => rw [hfp] at h; simp at h
      | ok pr =>
        obtain ⟨mesh2, P2x⟩ := pr
        rw [hfp] at h
        simp only at h
        have := ih _ _ _ _ _ _ _ h
        rw [this]
        simp only [pathTransforms, dedupTransforms]
        split <;> simp

/-! ### The dedup index assignment -/

/-- Where each shape's `transform_idx` points: walking with
`prev_transform = prev` over a record list `built` satisfying the run
invariant, every shape's assigned index refers to a record built from a
matrix IEEE-equal to (or identical with) the shape's own. -/
theorem dedupIdxs_get (ts : List Transform6) :
    ∀ (prev : Transform6) (built : List GpuTransform),
      ((∀ t0, Transform6.feq t0 prev = false) ∨
        (∃ u, built.getLast? = some (GpuTransform.ofTransform u) ∧
          (Transform6.feq u prev = true ∨ u = prev))) →
      ∀ (k : Nat) (t : Transform6), ts[k]? = some t →
        ∃ i u, (dedupIdxs prev built.length ts)[k]? = some i ∧
          (built ++ dedupTransforms prev ts)[i]? =
            some (GpuTransform.ofTransform u) ∧
          (Transform6.feq u t = true ∨ u = t) := by
  induction ts with
  | nil => intro prev built _ k t hk; simp at hk
  | cons t0 ts2 ih =>
    intro prev built hinv k t hk
    by_cases hfeq : Transform6.feq t0 prev = true
    · -- no new record appended; the run head still owns this shape
      have hrel : ∃ u, built.getLast? = some (GpuTransform.ofTransform u) ∧
          (Transform6.feq u t0 = true ∨ u = t0) := by
        rcases hinv with h1 | ⟨u, hu, hrel⟩
        · rw [h1 t0] at hfeq; exact absurd hfeq (by simp)
        · refine ⟨u, hu, ?_⟩
          have hpt : Transform6.feq prev t0 = true := by
            rw [Transform6.feq_symm]; exact hfeq
          rcases hrel with h2 | h2
          · exact Or.inl (Transform6.feq_trans h2 hpt)
          · subst h2
            exact Or.inl hpt
      obtain ⟨u, hu, hrel⟩ := hrel
      have hbuilt_ne : built ≠ [] := by
        intro h0; rw [h0] at hu; simp at hu
      cases k with
      | zero =>
        simp only [List.getElem?_cons_zero, Option.some.injEq] at hk
        subst hk
        refine ⟨built.length - 1, u, ?_, ?_, hrel⟩
        · simp [dedupIdxs, hfeq]
        · have hlt : built.length - 1 < built.length := by
            cases built with
            | nil => exact absurd rfl hbuilt_ne
            | cons b bs => simp
          rw [List.getElem?_append_left hlt]
          rw [List.getLast?_eq_getElem?] at hu
          exact hu
      | succ k2 =>
        simp only [List.getElem?_cons_succ] at hk
        have hnext := ih t0 built (Or.inr ⟨u, hu, hrel⟩) k2 t hk
        obtain ⟨i, u2, hi, hget, hrel2⟩ := hnext
        refine ⟨i, u2, ?_, ?_, hrel2⟩
        · simpa [dedupIdxs, hfeq] using hi
        · simpa [dedupTransforms, hfeq] using hget
    · -- a new record `ofTransform t0` is appended and owns this shape
      have hbuilt2 : (built ++ [GpuTransform.ofTransform t0]).getLast? =
          some (GpuTransform.ofTransform t0) := by
        simp
      cases k with
      | zero =>
        simp only [List.getElem?_cons_zero, Option.some.injEq] at hk
        subst hk
        refine ⟨built.length, t0, ?_, ?_, Or.inr rfl⟩
        · simp [dedupIdxs, hfeq]
        · rw [List.getElem?_append_right (Nat.le_refl _)]
          simp [dedupTransforms, hfeq]
      | succ k2 =>
        simp only [List.getElem?_cons_succ] at hk
        have hnext := ih t0 (built ++ [GpuTransform.ofTransform t0])
          (Or.inr ⟨t0, hbuilt2, Or.inr rfl⟩) k2 t hk
        obtain ⟨i, u2, hi, hget, hrel2⟩ := hnext
        refine ⟨i, u2, ?_, ?_, hrel2⟩
        · simpa [dedupIdxs, hfeq] using hi
        · rw [List.length_append] at hi
          simpa [dedupTransforms, hfeq] using hget

/-! ### Single-node decomposition of a successful tessellation -/

/-- What one path node with a present, successfully tessellated fill
contributes to a successful overall result: its fill primitive sits at
some position `P1.length` with its fill vertices tagged by exactly that
index, followed (when a stroke is present) by the stroke primitive
carrying the same transform index, with the stroke vertices tagged by
`P1.length + 1` — and nothing else of its making. -/
theorem tessellate_node_decomp (pre suf : List Node) (p : PathShape)
    (f : Fill) (vs : List (ℚ × ℚ)) (is : List Nat) (d : TessellationData)
    (hf : p.fill = some f) (hr : p.fillResult = .ok vs is)
    (htess : LyonTessellator.tessellate ⟨some ⟨pre ++ .path p :: suf⟩⟩ =
      .ok d) :
    ∃ tidx V1 V2 P1 P2 SP SV,
      d.primitives = P1 ++ GpuPrimitive.mk tidx (fillColor f) :: (SP ++ P2) ∧
      d.vertices = V1 ++ vs.map (fun q => ⟨q, P1.length⟩) ++ SV ++ V2 ∧
      ((p.stroke = none ∧ SP = [] ∧ SV = []) ∨
        (∃ s svs, p.stroke = some s ∧
          SP = [GpuPrimitive.mk tidx (convert_stroke s).1] ∧
          SV = svs.map (fun q => ⟨q, P1.length + 1⟩) ∧
          ((p.strokeResult = .err ∧ svs = []) ∨
            (∃ sis, p.strokeResult = .ok svs sis)))) := by
  unfold LyonTessellator.tessellate at htess
  simp only at htess
  rw [tessLoop_append] at htess
  cases hpre : tessLoop pre nanTransform ⟨[], []⟩ [] [] with
  | error e => rw [hpre] at htess; simp at htess
  | ok r1 =>
    obtain ⟨m1, T1, P1acc⟩ := r1
    rw [hpre] at htess
    simp only [tessLoop] at htess
    rw [fillPass_some_ok hf hr] at htess
    simp only at htess
    set prevT := lastTransform nanTransform pre with hprevT
    set T2 := if Transform6.feq p.transform prevT then T1
      else T1 ++ [GpuTransform.ofTransform p.transform] with hT2
    set tidx := T2.length - 1 with htidx
    set mesh2 : VertexBuffers :=
      ⟨m1.vertices ++ vs.map (fun q => ⟨q, P1acc.length⟩),
       m1.indices ++ is.map (fun i => i + m1.vertices.length)⟩ with hmesh2
    cases hs : p.stroke with
    | none =>
      rw [strokePass_none hs] at htess
      cases hloop : tessLoop suf p.transform mesh2 T2
          (P1acc ++ [GpuPrimitive.mk tidx (fillColor f)]) with
      | error e => rw [hloop] at htess; simp at htess
      | ok r2 =>
        obtain ⟨m2, T3, P3⟩ := r2
        rw [hloop] at htess
        have hd := (TessOutcome.ok.inj htess).symm
        obtain ⟨dv, di, dT, dP, hv, hi2, ht, hp⟩ := tessLoop_frame _ _ _ _ _
          _ _ _ hloop
        refine ⟨tidx, m1.vertices, dv, P1acc, dP, [], [], ?_, ?_, ?_⟩
        · rw [hd]; simp [hp]
        · rw [hd]; simp [hv, hmesh2]
        · exact Or.inl ⟨rfl, rfl, rfl⟩
    | some s =>
      cases hsr : p.strokeResult with
      | err =>
        rw [strokePass_some_err hs hsr] at htess
        cases hloop : tessLoop suf p.transform mesh2 T2
            ((P1acc ++ [GpuPrimitive.mk tidx (fillColor f)]) ++
              [GpuPrimitive.mk tidx (convert_stroke s).1]) with
        | error e => rw [hloop] at htess; simp at htess
        | ok r2 =>
          obtain ⟨m2, T3, P3⟩ := r2
          rw [hloop] at htess
          have hd := (TessOutcome.ok.inj htess).symm
          obtain ⟨dv, di, dT, dP, hv, hi2, ht, hp⟩ := tessLoop_frame _ _ _ _ _
            _ _ _ hloop
          refine ⟨tidx, m1.vertices, dv, P1acc, dP,
            [GpuPrimitive.mk tidx (convert_stroke s).1], [], ?_, ?_, ?_⟩
          · rw [hd]; simp [hp]
          · rw [hd]; simp [hv, hmesh2]
          · exact Or.inr ⟨s, [], rfl, rfl, by simp, Or.inl ⟨rfl, rfl⟩⟩
      | ok svs sis =>
        rw [strokePass_some_ok hs hsr] at htess
        simp only at htess
        cases hloop : tessLoop suf p.transform
            ⟨mesh2.vertices ++ svs.map (fun q =>
                ⟨q, (P1acc ++ [GpuPrimitive.mk tidx (fillColor f)]).length⟩),
             mesh2.indices ++ sis.map (fun i => i + mesh2.vertices.length)⟩
            T2
            ((P1acc ++ [GpuPrimitive.mk tidx (fillColor f)]) ++
              [GpuPrimitive.mk tidx (convert_stroke s).1]) with
        | error e => rw [hloop] at htess; simp at htess
        | ok r2 =>
          obtain ⟨m2, T3, P3⟩ := r2
          rw [hloop] at htess
          have hd := (TessOutcome.ok.inj htess).symm
          obtain ⟨dv, di, dT, dP, hv, hi2, ht, hp⟩ := tessLoop_frame _ _ _ _ _
            _ _ _ hloop
          refine ⟨tidx, m1.vertices, dv, P1acc, dP,
            [GpuPrimitive.mk tidx (convert_stroke s).1],
            svs.map (fun q => ⟨q, P1acc.length + 1⟩), ?_, ?_, ?_⟩
          · rw [hd]; simp [hp]
          · rw [hd]; simp [hv, hmesh2]
          · exact Or.inr ⟨s, svs, rfl, rfl, rfl, Or.inr ⟨sis, rfl⟩⟩

/-! ### Alpha conversion bound -/

/-- For `0 ≤ q ≤ 255` the saturating cast is plain truncation toward
zero (the clamp is inactive). -/
theorem f64AsU8_of_le (q : ℚ) (h0 : 0 ≤ q) (h255 : q ≤ 255) :
    f64AsU8 q = (ratTrunc q).toNat := by
  have hle : (ratTrunc q).toNat ≤ 255 := by
    rw [Int.toNat_le, ratTrunc,
      Int.tdiv_eq_ediv (Rat.num_nonneg.mpr h0) (by positivity),
      ← Rat.floor_def]
    have := Int.floor_le_floor (α := ℚ) h255
    simpa using this
  simp [f64AsU8, Nat.min_eq_right hle]

/-- Evaluation of the alpha cast at full opacity. -/
theorem f64AsU8_255 : f64AsU8 (255 : ℚ) = 255 := by
  norm_num [f64AsU8, ratTrunc]

/-! ### Claim C1 -/

/-- C1 (counterexample): the claim quantifies over every segment
sequence, but a sequence that starts with a `LineTo` (no `MoveTo`
first) makes the adapter emit a `Line` event with no `Begin` before it:
the stream `[Line, End]` violates the Begin/End well-formedness
invariant. -/
theorem c1_counterexample :
    wfEvents (pathEvents [PathSegment.lineTo 1 1]) = false := by decide

/-- C1 (amended): for every *normalized* segment sequence — one accepted
by the segment automaton `segsOk`: it starts with a `MoveTo`, no
`LineTo`/`CurveTo`/`ClosePath` occurs while no sub-path is open (at the
start or right after a `ClosePath`), no `MoveTo` immediately follows a
reopening `MoveTo`, and the sequence does not end on a reopening
`MoveTo` — the adapter's event stream is well-formed: it is a
concatenation of complete `Begin · (Line|Cubic)* · End` sub-paths (one
`Begin` before any edge, exactly one `End` per open sub-path before the
stream ends or a new `Begin` starts, no two adjacent `Begin`s), and an
`End` carries `closed = true` only if an explicit `ClosePath` segment
was consumed. Unnormalized sequences can violate it
(`c1_counterexample`). -/
theorem c1_wellformed (segs : List PathSegment) (h : segsOk segs = true) :
    wfEvents (pathEvents segs) = true ∧
    ∀ e ∈ pathEvents segs, e.isCloseEnd = true →
      PathSegment.closePath ∈ segs := by
  constructor
  · have h2 := wfRun_emitNone segs .closed (Point.mk 0 0) (Point.mk 0 0) h
    simp only [SubpathState.inside, SubpathState.ne] at h2
    simp [wfEvents, pathEvents_def, h2]
  · intro e hmem hce
    exact isCloseEnd_mem_emitNone segs _ _ _ e
      (by rwa [pathEvents_def] at hmem) hce

/-- C1 witness: a concrete normalized sequence satisfying the
hypothesis, with the conclusion evaluated on it. -/
theorem c1_wellformed_witness :
    segsOk [PathSegment.moveTo 0 0, PathSegment.lineTo 1 0,
      PathSegment.closePath] = true ∧
    wfEvents (pathEvents [PathSegment.moveTo 0 0, PathSegment.lineTo 1 0,
      PathSegment.closePath]) = true :=
  ⟨by decide, (c1_wellformed _ (by decide)).1⟩

/-! ### Claim C4 -/

/-- C4 (counterexample): `[MoveTo(0,0), MoveTo(1,1)]` does *not* produce
the four claimed events — no final `End` for the reopened sub-path is
ever emitted, because the deferred-`Begin` branch resets `needs_end` to
`false` and the `Begin` it defers does not set it back. -/
theorem c4_counterexample :
    pathEvents [PathSegment.moveTo 0 0, PathSegment.moveTo 1 1] ≠
      [PathEvent.begin (point 0 0),
       PathEvent.ends (point 0 0) (point 0 0) false,
       PathEvent.begin (point 1 1),
       PathEvent.ends (point 1 1) (point 1 1) false] := by decide

/-- C4 (amended): `[MoveTo(0,0), MoveTo(1,1)]` yields exactly the three
events `Begin(0,0)`, `End(last=(0,0), first=(0,0), closed=false)`,
`Begin(1,1)`, and then the stream ends with the second sub-path left
unterminated (no synthesized `End`, since `needs_end` is `false` after
the deferred `Begin`). -/
theorem c4_double_moveTo :
    pathEvents [PathSegment.moveTo 0 0, PathSegment.moveTo 1 1] =
      [PathEvent.begin (point 0 0),
       PathEvent.ends (point 0 0) (point 0 0) false,
       PathEvent.begin (point 1 1)] := by decide

/-! ### Claim C5 -/

/-- C5 (counterexample): `[MoveTo(1,1)]` does not yield
`End(last=(1,1), ...)`: the `Begin`-emitting `MoveTo` branch never
updates `prev`, so the synthesized `End` reads the stale initial
`prev = (0,0)` as its `last` field. -/
theorem c5_counterexample :
    pathEvents [PathSegment.moveTo 1 1] ≠
      [PathEvent.begin (point 1 1),
       PathEvent.ends (point 1 1) (point 1 1) false] := by decide

/-- C5 (amended): at end of input with a sub-path still open the adapter
emits exactly one final `End(closed=false)` whose `last` field is the
adapter's `prev` *state* (which a sub-path-opening `MoveTo` does not
update) and whose `first` field is the sub-path's first point; in
particular `[MoveTo(x,y)]` yields `Begin(x,y)` followed by
`End(last=(0,0), first=(x,y), closed=false)` — `last` equals the moved-to
point only when that point is the origin. -/
theorem c5_end_of_input :
    (∀ (prev first : Point),
      emitAll ⟨[], prev, first, true, none⟩ =
        [PathEvent.ends prev first false]) ∧
    (∀ x y : ℚ, pathEvents [PathSegment.moveTo x y] =
      [PathEvent.begin (point x y),
       PathEvent.ends (point 0 0) (point x y) false]) := by
  exact ⟨fun prev first => rfl, fun x y => rfl⟩

/-! ### Claim C6 -/

/-- C6 (counterexample): consuming `ClosePath` with
`prev = (1,0) ≠ first = (0,0)` does not emit `End(last=(1,0), ...)`: the
source resets `prev` to `first` *before* reading it into `last`, so
`last = first = (0,0)`. -/
theorem c6_counterexample :
    pathEvents [PathSegment.moveTo 0 0, PathSegment.lineTo 1 0,
      PathSegment.closePath] ≠
      [PathEvent.begin (point 0 0), PathEvent.line (point 0 0) (point 1 0),
       PathEvent.ends (point 1 0) (point 0 0) true] := by decide

/-- C6 (amended): consuming a `ClosePath` in state `prev = p`,
`first = f` emits `End(last=f, first=f, closed=true)` — the `last` field
is `f`, not `p`, because `previous_point` is reset to `first` before the
event is built — resets `prev` to `f` and clears `needs_end`. -/
theorem c6_closePath_step :
    ∀ (segs : List PathSegment) (prev first : Point) (ne : Bool),
      PathConvIter.next ⟨PathSegment.closePath :: segs, prev, first,
        ne, none⟩ =
      some (PathEvent.ends first first true,
        ⟨segs, first, first, false, none⟩) :=
  fun _ _ _ _ => rfl

/-! ### Claim C2 -/

/-- C2 (counterexample): in a two-shape scene where the first shape's
fill succeeds (one vertex enters the shared buffer) and the second
shape's fill pass reports an unrecoverable error, `tessellate` panics at
the `.expect` — it never returns a typed error value through its
`Result` (the error path of the return type is dead code), so the
claimed "returns a `GeometryError` failure result to the caller" is
false; the caller receives no value, partial or otherwise. -/
theorem c2_counterexample :
    c2Tess.tessellate = .panicked .fillExpect ∧
    ∀ e : RunError, c2Tess.tessellate ≠ .errReturn e := by
  refine ⟨by decide, fun e => nomatch e⟩

/-- C2 (amended): if any shape in the scene has a present fill whose
engine pass reports an unrecoverable error, the `tessellate` call aborts
by panicking at the `.expect` (it does not return at all, so no partial
mesh — no vertices from any shape, including earlier successful ones —
reaches the caller). -/
theorem c2_fill_failure_panics (lt : LyonTessellator) (st : LyonState)
    (hst : lt.state = some st)
    (hfail : ∃ p f, Node.path p ∈ st.nodes ∧ p.fill = some f ∧
      p.fillResult = .err) :
    lt.tessellate = .panicked .fillExpect := by
  have h2 := tessLoop_fail st.nodes nanTransform ⟨[], []⟩ [] [] hfail
  simp [LyonTessellator.tessellate, hst, h2]

/-- C2 witness. -/
theorem c2_fill_failure_panics_witness :
    c2Tess.state = some ⟨[.path c2Shape1, .path c2Shape2]⟩ ∧
    c2Shape2.fill = some ⟨.color 10 20 30, 1⟩ ∧
    c2Shape2.fillResult = .err ∧
    c2Tess.tessellate = .panicked .fillExpect :=
  ⟨rfl, rfl, rfl,
    c2_fill_failure_panics c2Tess ⟨[.path c2Shape1, .path c2Shape2]⟩ rfl
      ⟨c2Shape2, ⟨.color 10 20 30, 1⟩,
        List.mem_cons_of_mem _ (List.mem_cons_self _ _), rfl, rfl⟩⟩

/-! ### Claim C3 -/

/-- C3 (counterexample): a scene with a single stroke-only shape whose
stroke pass fails still returns one `GpuPrimitive` — the stroke
primitive is pushed *before* the stroke tessellator runs, so "no
Primitive emitted for it" is false (the no-vertices part does hold). -/
theorem c3_counterexample :
    c3Tess.tessellate = .ok ⟨[], [], [GpuTransform.ofTransform
      zeroTransform], [⟨0, ⟨1, 2, 3, 255⟩⟩]⟩ ∧
    (GpuPrimitive.mk 0 ⟨1, 2, 3, 255⟩) =
      ⟨0, (convert_stroke c3Stroke).1⟩ := by
  constructor
  · simp [c3Tess, c3Shape, c3Stroke, LyonTessellator.tessellate, tessLoop,
      fillPass, strokePass, runPass, convert_stroke, Transform6.feq,
      nanTransform, zeroTransform, F64.feq, f64AsU8_255]
  · simp [c3Stroke, convert_stroke, f64AsU8_255]

/-- C3 (amended): when one shape's stroke pass fails (and every present
fill tessellates), the overall call still succeeds, the failing shape
keeps its stroke `GpuPrimitive` but contributes no stroke vertices, and
every other shape is processed exactly as it would have been: the result
is identical to the one where that stroke pass succeeds emitting
nothing. -/
theorem c3_stroke_failure_tolerated (pre suf : List Node) (p : PathShape)
    (hserr : p.strokeResult = .err)
    (hfills : ∀ q f, Node.path q ∈ pre ++ .path p :: suf →
      q.fill = some f → q.fillResult ≠ .err) :
    (∃ d, LyonTessellator.tessellate ⟨some ⟨pre ++ .path p :: suf⟩⟩ =
      .ok d) ∧
    LyonTessellator.tessellate ⟨some ⟨pre ++ .path p :: suf⟩⟩ =
      LyonTessellator.tessellate
        ⟨some ⟨pre ++ .path { p with strokeResult := .ok [] [] } :: suf⟩⟩ := by
  constructor
  · obtain ⟨r, hr⟩ := tessLoop_ok_of_fills _ nanTransform ⟨[], []⟩ [] [] hfills
    obtain ⟨m, T, P⟩ := r
    refine ⟨⟨m.vertices, m.indices, T, P⟩, ?_⟩
    simp [LyonTessellator.tessellate, hr]
  · have h2 := tessLoop_stroke_err_congr pre suf p nanTransform ⟨[], []⟩
      [] [] hserr
    simp [LyonTessellator.tessellate, h2]

/-- C3 witness. -/
theorem c3_stroke_failure_tolerated_witness :
    c3Shape.strokeResult = .err ∧
    (∃ d, LyonTessellator.tessellate ⟨some ⟨[Node.path c3Shape]⟩⟩ =
      .ok d) ∧
    LyonTessellator.tessellate ⟨some ⟨[Node.path c3Shape]⟩⟩ =
      LyonTessellator.tessellate ⟨some ⟨[Node.path
        { c3Shape with strokeResult := .ok [] [] }]⟩⟩ :=
  ⟨rfl, c3_stroke_failure_tolerated [] [] c3Shape rfl (by
    intro q f hq hf
    simp only [List.nil_append, List.mem_singleton] at hq
    have hq2 := Node.path.inj hq
    subst hq2
    simp [c3Shape] at hf)⟩

/-! ### Claim C7 -/

/-- C7 (counterexample): the dedup comparison is IEEE `f64` equality
(the derived `PartialEq`), not bit-wise. Two consecutive shapes whose
transforms differ only in the sign bit of a zero (`+0.0` vs `-0.0`) are
bit-different — two maximal bit-identical runs — yet the code appends a
single transform record, because `-0.0 == +0.0` under IEEE equality. -/
theorem c7_counterexample :
    c7Tess.tessellate = .ok c7Data ∧
    c7Data.transforms.length = 1 ∧
    countRunsBy (fun a b => decide (a = b))
      (pathTransforms [.path c7Shape1, .path c7Shape2]) = 2 := by
  refine ⟨by decide, by decide, by decide⟩

/-- C7 (amended): for every successful walk, the transform list is
exactly the IEEE-equality dedup of the traversal's path transforms: its
length is the number of maximal runs of traversal-consecutive shapes
whose transforms are IEEE-`f64`-equal (the NaN-seeded sentinel forces
the first shape to append, and a NaN-carrying transform starts a new
run at every occurrence), and every shape's `transform_idx` refers to a
record built from a matrix IEEE-equal to — or bit-identical with — that
shape's own resolved matrix. The claimed *bit-identical* run count is
wrong (`c7_counterexample`). -/
theorem c7_transform_dedup (lt : LyonTessellator) (st : LyonState)
    (d : TessellationData) (hst : lt.state = some st)
    (htess : lt.tessellate = .ok d) :
    d.transforms = dedupTransforms nanTransform (pathTransforms st.nodes) ∧
    d.transforms.length =
      countRunsBy Transform6.feq (pathTransforms st.nodes) ∧
    (∀ (k : Nat) (t : Transform6), (pathTransforms st.nodes)[k]? = some t →
      ∃ i u,
        (dedupIdxs nanTransform 0 (pathTransforms st.nodes))[k]? = some i ∧
        d.transforms[i]? = some (GpuTransform.ofTransform u) ∧
        (Transform6.feq u t = true ∨ u = t)) := by
  unfold LyonTessellator.tessellate at htess
  rw [hst] at htess
  simp only at htess
  cases hloop : tessLoop st.nodes nanTransform ⟨[], []⟩ [] [] with
  | error e => rw [hloop] at htess; simp at htess
  | ok r =>
    obtain ⟨m, T, P⟩ := r
    rw [hloop] at htess
    have hd := (TessOutcome.ok.inj htess).symm
    have hT := tessLoop_transforms st.nodes _ _ _ _ _ _ _ hloop
    simp only [List.nil_append] at hT
    have hdt : d.transforms =
        dedupTransforms nanTransform (pathTransforms st.nodes) := by
      rw [hd]; exact hT
    refine ⟨hdt, ?_, ?_⟩
    · rw [hdt, dedupTransforms_length, countChanges_nan]
    · intro k t hk
      have h3 := dedupIdxs_get (pathTransforms st.nodes) nanTransform []
        (Or.inl Transform6.feq_nanTransform) k t hk
      simpa [hdt] using h3

/-- C7 witness. -/
theorem c7_transform_dedup_witness :
    c7Tess.state = some ⟨[.path c7Shape1, .path c7Shape2]⟩ ∧
    c7Tess.tessellate = .ok c7Data ∧
    c7Data.transforms =
      dedupTransforms nanTransform
        (pathTransforms [.path c7Shape1, .path c7Shape2]) :=
  ⟨rfl, by decide,
    (c7_transform_dedup c7Tess ⟨[.path c7Shape1, .path c7Shape2]⟩ c7Data
      rfl (by decide)).1⟩

/-! ### Claim C8 -/

/-- C8: a shape with both a fill and a stroke contributes, to any
successful result, exactly two consecutive primitives of its own — the
fill primitive first, then the stroke primitive, both carrying the same
`transform_idx` — and every vertex of its fill pass is tagged with the
first one's index (`P1.length`, its position in the primitive list)
while every vertex of its stroke pass is tagged with the second one's
(`P1.length + 1`); a failing stroke pass contributes no vertices but
keeps the stroke primitive. -/
theorem c8_fill_stroke_primitives (pre suf : List Node) (p : PathShape)
    (f : Fill) (s : Stroke) (vs : List (ℚ × ℚ)) (is : List Nat)
    (d : TessellationData)
    (hf : p.fill = some f) (hs : p.stroke = some s)
    (hr : p.fillResult = .ok vs is)
    (htess : LyonTessellator.tessellate ⟨some ⟨pre ++ .path p :: suf⟩⟩ =
      .ok d) :
    ∃ tidx V1 V2 P1 P2 svs,
      d.primitives = P1 ++ GpuPrimitive.mk tidx (fillColor f) ::
        GpuPrimitive.mk tidx (convert_stroke s).1 :: P2 ∧
      d.vertices = V1 ++ vs.map (fun q => ⟨q, P1.length⟩) ++
        svs.map (fun q => ⟨q, P1.length + 1⟩) ++ V2 ∧
      ((p.strokeResult = .err ∧ svs = []) ∨
        (∃ sis, p.strokeResult = .ok svs sis)) := by
  obtain ⟨tidx, V1, V2, P1, P2, SP, SV, hp, hv, hrest⟩ :=
    tessellate_node_decomp pre suf p f vs is d hf hr htess
  rcases hrest with ⟨hnone, _, _⟩ | ⟨s2, svs, hs2, hSP, hSV, hres⟩
  · rw [hnone] at hs; exact absurd hs (by simp)
  · have hss : s2 = s := by
      rw [hs] at hs2
      exact (Option.some.inj hs2).symm
    subst hss
    refine ⟨tidx, V1, V2, P1, P2, svs, ?_, ?_, hres⟩
    · rw [hp, hSP]; simp
    · rw [hv, hSV]

/-- C8 witness. -/
theorem c8_fill_stroke_primitives_witness :
    c8Shape.fill = some c8Fill ∧ c8Shape.stroke = some c8Stroke ∧
    c8Shape.fillResult = .ok [(0, 0), (1, 0)] [0, 1] ∧
    c8Tess.tessellate = .ok c8Data ∧
    (∃ tidx V1 V2 P1 P2 svs,
      c8Data.primitives = P1 ++ GpuPrimitive.mk tidx (fillColor c8Fill) ::
        GpuPrimitive.mk tidx (convert_stroke c8Stroke).1 :: P2 ∧
      c8Data.vertices = V1 ++
        ([((0 : ℚ), (0 : ℚ)), (1, 0)]).map
          (fun q => ⟨q, P1.length⟩) ++
        svs.map (fun q => ⟨q, P1.length + 1⟩) ++ V2 ∧
      ((c8Shape.strokeResult = .err ∧ svs = []) ∨
        (∃ sis, c8Shape.strokeResult = .ok svs sis))) := by
  have htess : c8Tess.tessellate = .ok c8Data := by
    simp [c8Tess, c8Shape, c8Fill, c8Stroke, c8Data,
      LyonTessellator.tessellate, tessLoop, fillPass, strokePass, runPass,
      convert_stroke, fillColor, Transform6.feq, nanTransform,
      zeroTransform, F64.feq, f64AsU8_255]
  exact ⟨rfl, rfl, rfl, htess,
    c8_fill_stroke_primitives [] [] c8Shape c8Fill c8Stroke
      [(0, 0), (1, 0)] [0, 1] c8Data rfl rfl rfl htess⟩

/-! ### Claim C9 -/

/-- C9: paint resolution is total and never signals an error. A solid
fill or stroke paint with opacity in `[0, 1]` resolves to the paint's
`red`/`green`/`blue` copied verbatim with `alpha` the truncation toward
zero of `opacity * 255`; every non-solid (gradient/pattern link) paint
resolves to the fallback color `{0,0,0,0}`; and a gradient-filled shape
still contributes its fill primitive (with the fallback color) and its
tessellated fill geometry to a successful result. -/
theorem c9_paint_resolution :
    (∀ (f : Fill) (r g b : Nat), f.paint = .color r g b →
      0 ≤ f.opacity → f.opacity ≤ 1 →
      fillColor f = ⟨r, g, b, (ratTrunc (f.opacity * 255)).toNat⟩) ∧
    (∀ (s : Stroke) (r g b : Nat), s.paint = .color r g b →
      0 ≤ s.opacity → s.opacity ≤ 1 →
      (convert_stroke s).1 = ⟨r, g, b, (ratTrunc (s.opacity * 255)).toNat⟩) ∧
    (∀ f : Fill, f.paint = .link → fillColor f = FALLBACK_COLOR) ∧
    (∀ s : Stroke, s.paint = .link →
      (convert_stroke s).1 = FALLBACK_COLOR) ∧
    (∀ (pre suf : List Node) (p : PathShape) (f : Fill)
      (vs : List (ℚ × ℚ)) (is : List Nat) (d : TessellationData),
      p.fill = some f → f.paint = .link → p.fillResult = .ok vs is →
      LyonTessellator.tessellate ⟨some ⟨pre ++ .path p :: suf⟩⟩ = .ok d →
      ∃ tidx V1 V2 P1 Prest,
        d.primitives = P1 ++ GpuPrimitive.mk tidx FALLBACK_COLOR :: Prest ∧
        d.vertices = V1 ++ vs.map (fun q => ⟨q, P1.length⟩) ++ V2) := by
  have halpha : ∀ q : ℚ, 0 ≤ q → q ≤ 1 →
      f64AsU8 (q * 255) = (ratTrunc (q * 255)).toNat := by
    intro q h0 h1
    exact f64AsU8_of_le _ (by positivity) (by nlinarith)
  refine ⟨?_, ?_, ?_, ?_, ?_⟩
  · intro f r g b hp h0 h1
    simp [fillColor, hp, halpha f.opacity h0 h1]
  · intro s r g b hp h0 h1
    simp [convert_stroke, hp, halpha s.opacity h0 h1]
  · intro f hp; simp [fillColor, hp]
  · intro s hp; simp [convert_stroke, hp]
  · intro pre suf p f vs is d hf hlink hr htess
    obtain ⟨tidx, V1, V2, P1, P2, SP, SV, hp, hv, _⟩ :=
      tessellate_node_decomp pre suf p f vs is d hf hr htess
    refine ⟨tidx, V1, SV ++ V2, P1, SP ++ P2, ?_, ?_⟩
    · rw [hp]; simp [fillColor, hlink]
    · rw [hv]; simp

/-- C9 witness. -/
theorem c9_paint_resolution_witness :
    (Fill.mk (.color 5 6 7) (1 / 2)).paint = .color 5 6 7 ∧
    (0 : ℚ) ≤ 1 / 2 ∧ (1 / 2 : ℚ) ≤ 1 ∧
    fillColor ⟨.color 5 6 7, 1 / 2⟩ =
      ⟨5, 6, 7, (ratTrunc ((1 / 2 : ℚ) * 255)).toNat⟩ ∧
    c9Shape.fill = some c9Fill ∧ c9Fill.paint = .link ∧
    c9Tess.tessellate = .ok c9Data ∧
    (∃ tidx V1 V2 P1 Prest,
      c9Data.primitives = P1 ++ GpuPrimitive.mk tidx FALLBACK_COLOR ::
        Prest ∧
      c9Data.vertices = V1 ++
        ([((0 : ℚ), (0 : ℚ))]).map (fun q => ⟨q, P1.length⟩) ++ V2) := by
  have htess : c9Tess.tessellate = .ok c9Data := by decide
  exact ⟨rfl, by norm_num, by norm_num,
    c9_paint_resolution.1 ⟨.color 5 6 7, 1 / 2⟩ 5 6 7 rfl (by norm_num)
      (by norm_num),
    rfl, rfl, htess,
    c9_paint_resolution.2.2.2.2 [] [] c9Shape c9Fill [(0, 0)] [0] c9Data
      rfl rfl rfl htess⟩

/-! ### Claim C10 -/

/-- C10: calling `tessellate` on the state `LyonTessellator::new` leaves
behind (`state = None`) reaches the `unwrap` panic instead of returning
a `Result`; once `init` has completed (`state = Some _`), that panic
branch is unreachable — a `tessellate` call can then only return or hit
the fill `.expect`. -/
theorem c10_state_unwrap :
    LyonTessellator.new.tessellate = .panicked .stateUnwrap ∧
    ∀ st : LyonState, (LyonTessellator.mk (some st)).tessellate ≠
      .panicked .stateUnwrap := by
  constructor
  · rfl
  · intro st h
    unfold LyonTessellator.tessellate at h
    simp only at h
    cases hloop : tessLoop st.nodes nanTransform ⟨[], []⟩ [] [] with
    | error e =>
      rw [hloop] at h
      have he := tessLoop_error_fillExpect st.nodes _ _ _ _ _ hloop
      subst he
      exact absurd (TessOutcome.panicked.inj h) (by simp)
    | ok r =>
      obtain ⟨m, T, P⟩ := r
      rw [hloop] at h
      exact TessOutcome.noConfusion h

/-- C10 witness. -/
theorem c10_state_unwrap_witness :
    (LyonTessellator.mk (some ⟨[]⟩)).tessellate ≠
      .panicked .stateUnwrap :=
  c10_state_unwrap.2 ⟨[]⟩

end SvgTess

